import Mathlib

/-!
Verification of the neuralmonkey trainer (`neuralmonkey/trainers/generic_trainer.py`)
and the character/German text utilities (`language_utils.py`).

Shallow embedding conventions:
* tensor values are modelled as rationals (`ℚ`); elementwise tensors where the
  code needs their elements (trainable variables) are `List ℚ`;
* `tf.Variable` identity (dict keys in `_sum_gradients`) is modelled by `Nat` ids;
* Python code that can raise is modelled with `Option`, `none` meaning the call
  raises an exception;
* Python strings are `String`; a Python "list of characters" is `List Char`.
-/

/-! ## language_utils.py -/

/-- `preprocess_char_based(sequence)`: `return list(sequence)` — the list of the
string's characters. -/
def preprocess_char_based (sequence : String) : List Char :=
  sequence.data

/-- `postprocess_char_based(sequences, _)`: `return [["".join(sqc)] for sqc in sequences]`.
Joining a list of characters back into one string is `String.mk`. The second
(ignored) argument may be anything. -/
def postprocess_char_based {α : Type} (sequences : List (List Char)) (_a : α) :
    List (List String) :=
  sequences.map (fun sqc => [String.mk sqc])

/-- Python `str.lower()` (modelled on the ASCII mapping of `Char.toLower`). -/
def pyLower (s : String) : String :=
  String.mk (s.data.map Char.toLower)

/-- Python `str.capitalize()`: first character upper-cased, all remaining
characters lower-cased (modelled on the ASCII mapping of `Char.toUpper`/`toLower`). -/
def pyCapitalize (s : String) : String :=
  match s.data with
  | [] => s
  | c :: rest => String.mk (c.toUpper :: rest.map Char.toLower)

/-- The `CONTRACT` nested dictionary of `language_utils.py`, built from
`CONTRACTIONS` and `UNCONTRACTED_FORMS`: `CONTRACT[article][prep]` is the German
contraction of `prep + article`.  `contractLookup article prep = none` models both
`article not in CONTRACT` and `prep not in CONTRACT[article]`. -/
def contractLookup (article prep : String) : Option String :=
  if article = "dem" then
    if prep = "an" then some ("am")
    else if prep = "bei" then some ("beim")
    else if prep = "in" then some ("im")
    else if prep = "von" then some ("vom")
    else if prep = "zu" then some ("zum")
    else none
  else if article = "das" then
    if prep = "an" then some ("ans")
    else if prep = "in" then some ("ins")
    else none
  else if article = "der" then
    if prep = "zu" then some ("zur")
    else none
  else none

/-- The three feature flags of `GermanPostprocessor.__init__`. -/
structure GermanFlags where
  compounding : Bool
  contracting : Bool
  pronouns : Bool

/-- Python `result[-1] = f(result[-1])` (no-op on `[]`, which is unreachable in
the guarded uses below). -/
def mapLast {α : Type} (f : α → α) : List α → List α
  | [] => []
  | [x] => [f x]
  | x :: y :: xs => x :: mapLast f (y :: xs)

/-- The condition `word in CONTRACT and result and result[-1] in CONTRACT[word]`
of `GermanPostprocessor.__call__`. -/
def contractCond (word : String) (result : List String) : Bool :=
  match result.getLast? with
  | some lw => (contractLookup word lw).isSome
  | none => false

/-- One iteration of the `for word in sentence` loop of
`GermanPostprocessor.__call__`; the state is `(result, compound)`.
`word.startswith("<<")` is the character-level prefix test and `word[2:]`
drops the first two characters. -/
def germanPostStep (fl : GermanFlags) (st : List String × Bool) (word : String) :
    List String × Bool :=
  let result := st.1
  let compound := st.2
  if fl.contracting && contractCond word result then
    (mapLast (fun lw => (contractLookup word lw).getD lw) result, compound)
  else if fl.pronouns && ("<<").data.isPrefixOf word.data then
    (if result.isEmpty then result else mapLast (fun lw => lw ++ word.drop 2) result,
     compound)
  else if fl.compounding && !result.isEmpty && word == ">><<" then
    (result, true)
  else if fl.compounding && compound then
    (mapLast (fun lw => lw ++ pyLower word) result, false)
  else
    (result ++ [word], compound)

/-- `GermanPostprocessor.__call__`: run the word loop starting from
`result = [], compound = False`, then `if result: result[0] = result[0].capitalize()`. -/
def germanPostprocess (fl : GermanFlags) (sentence : List String) : List String :=
  match (sentence.foldl (germanPostStep fl) ([], false)).1 with
  | [] => []
  | w :: rest => pyCapitalize w :: rest

/-! ## generic_trainer.py — regularization -/

/-- A trainable variable as seen by the regularization block: its TF name and its
(flattened) elements. -/
structure TFVariable where
  name : String
  value : List ℚ
deriving DecidableEq

/-- `BIAS_REGEX.findall(v.name)` is non-empty iff the name contains a match of
`[Bb]ias`, i.e. contains `bias` or `Bias` as a substring. -/
def biasFindall (name : String) : Bool :=
  decide (("bias").data <:+: name.data) || decide (("Bias").data <:+: name.data)

/-- The filter clause of the `regularizable` comprehension:
`[... for v in tf.trainable_variables() if BIAS_REGEX.findall(v.name)]`.
Note the source KEEPS the variables whose name matches the bias pattern. -/
def regularizableVars (tvars : List TFVariable) : List TFVariable :=
  tvars.filter (fun v => biasFindall v.name)

/-- `regularizable = [tf.reduce_sum(v ** 2) for v in tf.trainable_variables()
                      if BIAS_REGEX.findall(v.name)]` —
each entry is the sum of the squared elements of a selected variable. -/
def regularizable (tvars : List TFVariable) : List ℚ :=
  (regularizableVars tvars).map (fun v => (v.value.map (fun x => x * x)).sum)

/-- `l1_value = sum(abs(v) for v in regularizable)`. -/
def l1_value (tvars : List TFVariable) : ℚ :=
  ((regularizable tvars).map (fun v => |v|)).sum

/-- `l2_value = sum(v * v for v in regularizable)`. -/
def l2_value (tvars : List TFVariable) : ℚ :=
  ((regularizable tvars).map (fun v => v * v)).sum

/-! ## Theorems for the language utilities -/

/-- **C9**: `preprocess_char_based` returns the list of the string's characters,
and postprocessing the singleton batch of that character list recovers the
original string: `postprocess_char_based([preprocess_char_based(s)], anything) == [[s]]`. -/
theorem c9_char_based_round_trip (α : Type) (s : String) (a : α) :
    preprocess_char_based s = s.data ∧
      postprocess_char_based [preprocess_char_based s] a = [[s]] := by
  refine ⟨rfl, ?_⟩
  cases s
  rfl

/-- **C10**: whenever `GermanPostprocessor.__call__` returns a non-empty sentence,
its first word is the `capitalize()` of some word (first character upper-cased,
the rest lower-cased), for every combination of the three feature flags; and even
with compounding, contracting and pronouns all disabled the postprocessor is not
the identity. -/
theorem c10_german_postprocessor_capitalizes_first :
    (∀ (fl : GermanFlags) (sentence : List String),
        germanPostprocess fl sentence ≠ [] →
        ∃ w rest, germanPostprocess fl sentence = pyCapitalize w :: rest) ∧
      germanPostprocess ⟨false, false, false⟩ [("hallo")] ≠ [("hallo")] := by
  constructor
  · intro fl sentence hne
    unfold germanPostprocess at hne ⊢
    rcases h : (sentence.foldl (germanPostStep fl) ([], false)).1 with _ | ⟨w, rest⟩
    · rw [h] at hne
      exact absurd rfl hne
    · exact ⟨w, rest, rfl⟩
  · decide

/-- Witness for C10: a concrete run whose non-empty output starts with a
capitalized word. -/
theorem c10_german_postprocessor_capitalizes_first_witness :
    (germanPostprocess ⟨true, true, true⟩ [("hallo"), ("welt")]).head?.isSome = true := by
  obtain ⟨w, rest, h⟩ :=
    c10_german_postprocessor_capitalizes_first.1 ⟨true, true, true⟩
      [("hallo"), ("welt")] (by decide)
  rw [h]
  rfl

/-- **C1** (counter-evaluation): on trainable variables named `weights_w` and
`bias_b`, the comprehension that builds the regularization set selects exactly
the `bias_b` variable — the variables whose name matches `[Bb]ias` are the ones
KEPT for the L1/L2 penalty, and the non-bias variable is the one excluded. -/
theorem c1_code_selects_bias_named_variables :
    (regularizableVars [⟨("weights_w"), [2]⟩, ⟨("bias_b"), [3]⟩]).map TFVariable.name
        = [("bias_b")] ∧
      biasFindall ("weights_w") = false ∧ biasFindall ("bias_b") = true := by
  decide

/-- **C2** (counter-evaluation): with a single selected variable holding the one
scalar element `-3`, the code computes `l1_value = |reduce_sum(v ** 2)| = 9`
(not `3`) and `l2_value = 81` (not `9`), because the entries of `regularizable`
are already the sums of squares, not the variables themselves. -/
theorem c2_l1_l2_values_at_minus_three :
    l1_value [⟨("bias"), [-3]⟩] = 9 ∧ l2_value [⟨("bias"), [-3]⟩] = 81 := by
  norm_num [l1_value, l2_value, regularizable, regularizableVars, biasFindall]

/-! ## generic_trainer.py — gradient aggregation (`_sum_gradients`) -/

/-- One Python-dict update of `_sum_gradients`:
`summed_dict[var] = tensor` when the key is absent (a new binding is appended at
the end, as Python dicts preserve insertion order), `summed_dict[var] += tensor`
when it is present (the value is increased in place). -/
def dictAdd (d : List (Nat × ℚ)) (w : Nat) (g : ℚ) : List (Nat × ℚ) :=
  match d with
  | [] => [(w, g)]
  | (k, q) :: rest => if k = w then (k, q + g) :: rest else (k, q) :: dictAdd rest w g

/-- The body of the inner loop of `_sum_gradients`: a `None` tensor is skipped,
any other tensor is added into the running dict under its variable. -/
def sumGradStep (d : List (Nat × ℚ)) (e : Option ℚ × Nat) : List (Nat × ℚ) :=
  match e.1 with
  | none => d
  | some g => dictAdd d e.2 g

/-- `_sum_gradients(gradients_list)`: iterate the input gradient lists and their
`(tensor, var)` entries accumulating per-variable sums, then return the dict
items as `(tensor, var)` pairs. -/
def sumGradients (gradients_list : List (List (Option ℚ × Nat))) : List (ℚ × Nat) :=
  (gradients_list.foldl (fun d gradients => gradients.foldl sumGradStep d) []).map
    (fun p => (p.2, p.1))

/-- Specification-side expression: the non-null gradient contributions to
variable `v` in a flat list of `(tensor, var)` entries, in order. -/
def contribsAux (v : Nat) (es : List (Option ℚ × Nat)) : List ℚ :=
  es.filterMap (fun e => if e.2 = v then e.1 else none)

/-- Specification-side expression: all non-null contributions to variable `v`
across all input gradient lists. -/
def contribs (gl : List (List (Option ℚ × Nat))) (v : Nat) : List ℚ :=
  contribsAux v gl.flatten

/-- Association-list lookup (proof device for reasoning about the dict). -/
def dictLookup (v : Nat) : List (Nat × ℚ) → Option ℚ
  | [] => none
  | (k, q) :: rest => if k = v then some q else dictLookup v rest

lemma dictLookup_dictAdd (d : List (Nat × ℚ)) (w v : Nat) (g : ℚ) :
    dictLookup v (dictAdd d w g) =
      match dictLookup v d with
      | none => if w = v then some g else none
      | some q => if w = v then some (q + g) else some q := by
  induction d with
  | nil => by_cases h : w = v <;> simp [dictAdd, dictLookup, h]
  | cons p rest ih =>
    obtain ⟨k, q⟩ := p
    by_cases hk : k = w
    · subst hk
      by_cases hv : k = v
      · subst hv
        simp [dictAdd, dictLookup]
      · simp [dictAdd, dictLookup, hv]
        cases dictLookup v rest <;> rfl
    · by_cases hv : k = v
      · subst hv
        have hw : ¬w = k := fun h => hk h.symm
        simp [dictAdd, dictLookup, hk, hw]
      · simp only [dictAdd, if_neg hk, dictLookup, ih, if_neg hv]

lemma dictLookup_foldl_sumGradStep (es : List (Option ℚ × Nat)) (d : List (Nat × ℚ))
    (v : Nat) :
    dictLookup v (es.foldl sumGradStep d) =
      match dictLookup v d with
      | none =>
        if contribsAux v es = [] then none else some (contribsAux v es).sum
      | some q => some (q + (contribsAux v es).sum) := by
  induction es generalizing d with
  | nil =>
    rw [List.foldl_nil]
    cases h : dictLookup v d <;> simp [contribsAux, h]
  | cons e rest ih =>
    obtain ⟨go, w⟩ := e
    cases go with
    | none =>
      have hc : contribsAux v ((none, w) :: rest) = contribsAux v rest := by
        simp [contribsAux, List.filterMap_cons]
      have hstep : sumGradStep d (none, w) = d := rfl
      rw [List.foldl_cons, hstep, ih, hc]
    | some g =>
      have hstep : sumGradStep d (some g, w) = dictAdd d w g := rfl
      by_cases hw : w = v
      · subst hw
        have hc : contribsAux w ((some g, w) :: rest) = g :: contribsAux w rest := by
          simp [contribsAux, List.filterMap_cons]
        rw [List.foldl_cons, hstep, ih, dictLookup_dictAdd, hc]
        cases dictLookup w d with
        | none => simp
        | some q => simp [add_assoc]
      · have hc : contribsAux v ((some g, w) :: rest) = contribsAux v rest := by
          simp [contribsAux, List.filterMap_cons, hw]
        rw [List.foldl_cons, hstep, ih, dictLookup_dictAdd, hc]
        cases dictLookup v d <;> simp [hw]

lemma keys_dictAdd (d : List (Nat × ℚ)) (w : Nat) (g : ℚ) :
    (dictAdd d w g).map Prod.fst =
      if w ∈ d.map Prod.fst then d.map Prod.fst else d.map Prod.fst ++ [w] := by
  induction d with
  | nil => simp [dictAdd]
  | cons p rest ih =>
    obtain ⟨k, q⟩ := p
    by_cases hk : k = w
    · subst hk
      simp [dictAdd]
    · have hw : ¬w = k := fun h => hk h.symm
      by_cases hm : w ∈ rest.map Prod.fst <;>
        simp [dictAdd, hk, hw, hm, ih]

lemma nodup_keys_dictAdd {d : List (Nat × ℚ)} (w : Nat) (g : ℚ)
    (h : (d.map Prod.fst).Nodup) : ((dictAdd d w g).map Prod.fst).Nodup := by
  rw [keys_dictAdd]
  by_cases hm : w ∈ d.map Prod.fst
  · simpa [hm] using h
  · rw [if_neg hm]
    refine List.nodup_append.2 ⟨h, List.nodup_singleton w, ?_⟩
    intro a ha hmem
    rw [List.mem_singleton] at hmem
    subst hmem
    exact hm ha

lemma nodup_keys_foldl_sumGradStep (es : List (Option ℚ × Nat)) (d : List (Nat × ℚ))
    (h : (d.map Prod.fst).Nodup) :
    (((es.foldl sumGradStep d)).map Prod.fst).Nodup := by
  induction es generalizing d with
  | nil => exact h
  | cons e rest ih =>
    obtain ⟨go, w⟩ := e
    cases go with
    | none => exact ih d h
    | some g => exact ih (dictAdd d w g) (nodup_keys_dictAdd w g h)

lemma filter_eq_of_dictLookup (d : List (Nat × ℚ)) (v : Nat)
    (hn : (d.map Prod.fst).Nodup) :
    d.filter (fun p => p.1 == v) =
      match dictLookup v d with
      | none => []
      | some q => [(v, q)] := by
  induction d with
  | nil => rfl
  | cons p rest ih =>
    obtain ⟨k, q⟩ := p
    rw [List.map_cons, List.nodup_cons] at hn
    obtain ⟨hk_not, hrest⟩ := hn
    by_cases hv : k = v
    · subst hv
      have hrf : rest.filter (fun p => p.1 == k) = [] := by
        rw [List.filter_eq_nil_iff]
        intro a ha hpa
        rw [beq_iff_eq] at hpa
        exact hk_not (List.mem_map.2 ⟨a, ha, hpa⟩)
      simp [List.filter_cons, dictLookup, hrf]
    · simp [List.filter_cons, dictLookup, hv, ih hrest]

lemma filter_swap_map (d : List (Nat × ℚ)) (v : Nat) :
    (d.map (fun p => (p.2, p.1))).filter (fun e => e.2 == v) =
      (d.filter (fun p => p.1 == v)).map (fun p : Nat × ℚ => (p.2, p.1)) := by
  induction d with
  | nil => rfl
  | cons p rest ih =>
    obtain ⟨k, q⟩ := p
    by_cases h : k = v <;> simp [List.filter_cons, h, ih]

/-- Characterization of `_sum_gradients`: the entries of the result that mention
variable `v` are empty when every contribution to `v` was null, and otherwise
form the single pair `(sum of the non-null contributions, v)`. -/
lemma sumGradients_filter_spec (gl : List (List (Option ℚ × Nat))) (v : Nat) :
    (sumGradients gl).filter (fun e => e.2 == v) =
      if contribs gl v = [] then [] else [((contribs gl v).sum, v)] := by
  unfold sumGradients
  rw [← List.foldl_flatten sumGradStep ([] : List (Nat × ℚ)) gl]
  rw [filter_swap_map]
  rw [filter_eq_of_dictLookup _ v
    (nodup_keys_foldl_sumGradStep gl.flatten [] (by simp))]
  rw [dictLookup_foldl_sumGradStep gl.flatten [] v]
  by_cases hc : contribsAux v gl.flatten = [] <;>
    simp [dictLookup, contribs, hc]

/-- **C4**: for every list of input gradient lists, the aggregate of
`_sum_gradients` holds exactly one entry for each variable with at least one
non-null contribution, valued at the sum of all its non-null contributions, and
no entry at all for a variable whose every contribution was null. -/
theorem c4_sum_gradients_entries (gl : List (List (Option ℚ × Nat))) (v : Nat) :
    (sumGradients gl).filter (fun e => e.2 == v) =
      if contribs gl v = [] then [] else [((contribs gl v).sum, v)] :=
  sumGradients_filter_spec gl v

/-- **C5**: gradient aggregation is order-independent — permuting the list of
input gradient lists leaves every per-variable aggregate unchanged. -/
theorem c5_sum_gradients_perm_invariant (gl gl' : List (List (Option ℚ × Nat)))
    (h : gl.Perm gl') (v : Nat) :
    (sumGradients gl).filter (fun e => e.2 == v) =
      (sumGradients gl').filter (fun e => e.2 == v) := by
  have hperm : (contribs gl v).Perm (contribs gl' v) :=
    List.Perm.filterMap _ (List.Perm.flatten h)
  rw [sumGradients_filter_spec, sumGradients_filter_spec]
  by_cases hc : contribs gl v = []
  · rw [hc] at hperm
    rw [hc, (List.Perm.eq_nil hperm.symm)]
  · have hc' : contribs gl' v ≠ [] := by
      intro h0
      rw [h0] at hperm
      exact hc (List.Perm.eq_nil hperm)
    rw [if_neg hc, if_neg hc', List.Perm.sum_eq hperm]

/-- Witness for C5: swapping two concrete input gradient lists leaves the
aggregate for variable `0` unchanged. -/
theorem c5_sum_gradients_perm_invariant_witness :
    (sumGradients [[(some 1, 0)], [(some 2, 0)]]).filter (fun e => e.2 == 0) =
      (sumGradients [[(some 2, 0)], [(some 1, 0)]]).filter (fun e => e.2 == 0) :=
  c5_sum_gradients_perm_invariant _ _ (List.Perm.swap _ _ _) 0

/-! ## generic_trainer.py — trainer construction -/

/-- The Python values the `clip_norm` argument takes in this code base: the
default `False`, `None`, or a numeric bound. -/
inductive ClipNormArg where
  | pyNone : ClipNormArg
  | pyBool : Bool → ClipNormArg
  | pyNum : ℚ → ClipNormArg
deriving DecidableEq

/-- The numeric value of a `clip_norm` argument when it reaches arithmetic
(Python booleans are the integers 0 and 1; `None` never reaches arithmetic
because of the `is not None` guard). -/
def ClipNormArg.toQ : ClipNormArg → ℚ
  | ClipNormArg.pyNone => 0
  | ClipNormArg.pyBool b => if b then 1 else 0
  | ClipNormArg.pyNum q => q

/-- Modelled from the spec: the external norm-clip operation
(`tf.clip_by_norm`), "every aggregated gradient is rescaled so its norm does
not exceed this bound", on scalar tensors, whose norm is `|t|`. -/
def clipByNorm (t c : ℚ) : ℚ :=
  if |t| ≤ c then t else t * c / |t|

/-- Lines 60–62 of `generic_trainer.py`:
`if clip_norm is not None: gradients = [(tf.clip_by_norm(grad, clip_norm), var) ...]`.
Note the guard is `is not None`, so the default `clip_norm=False` also enters
the clipping branch (with numeric bound 0). -/
def clipStage (clip_norm : ClipNormArg) (gradients : List (ℚ × Nat)) : List (ℚ × Nat) :=
  if clip_norm ≠ ClipNormArg.pyNone then
    gradients.map (fun gv => (clipByNorm gv.1 clip_norm.toQ, gv.2))
  else gradients

/-- An `Objective` record: name, (opaque) decoder handle, loss, optional
precomputed gradients. -/
structure Objective where
  name : String
  decoder : Nat
  loss : ℚ
  gradients : Option (List (Option ℚ × Nat))

/-- Modelled from Python `set.union(*sets)`: with an empty argument list the
call `set.union()` raises `TypeError` (the bound `union` descriptor needs at
least the receiver), otherwise it unions all the sets. -/
def setUnionAll (sets : List (Finset Nat)) : Option (Finset Nat) :=
  match sets with
  | [] => none
  | s :: rest => some (rest.foldl (fun a b => a ∪ b) s)

/-- The fields of a constructed `GenericTrainer` relevant to the claims. -/
structure Trainer where
  losses : List ℚ
  gradients : List (ℚ × Nat)
  allCoders : Finset Nat

/-- `GenericTrainer.__init__`, shallowly embedded.  `collectEncoders` stands
for the external `collect_encoders` utility of `neuralmonkey.runners.base_runner`
(modelled from the spec: "components reachable from each objective's decoder
handle") and `computeGradients` for `optimizer.compute_gradients` (the external
differentiation entry point).  The result is `none` when construction raises:
the only failure point modelled is `set.union(*(...))` on an empty objectives
list. -/
def trainerInit (tvars : List TFVariable) (collectEncoders : Nat → Finset Nat)
    (computeGradients : ℚ → List (Option ℚ × Nat)) (objectives : List Objective)
    (l1_weight l2_weight : ℚ) (clip_norm : ClipNormArg) : Option Trainer :=
  let l1_v := l1_value tvars
  let l2_v := l2_value tvars
  let l1_c := if l1_weight > 0 then l1_weight * l1_v else 0
  let l2_c := if l2_weight > 0 then l2_weight * l2_v else 0
  let losses := objectives.map Objective.loss ++ [l1_v, l2_v]
  let partial_gradients :=
    objectives.map (fun o =>
      match o.gradients with
      | none => computeGradients o.loss
      | some gs => gs) ++
    ([l1_c, l2_c].filter (fun l => decide (l ≠ 0))).map computeGradients
  let gradients := clipStage clip_norm (sumGradients partial_gradients)
  match setUnionAll (objectives.map (fun o => collectEncoders o.decoder)) with
  | none => none
  | some coders =>
    some { losses := losses, gradients := gradients, allCoders := coders }

/-- **C3** (counter-evaluation): with the default `clip_norm=False` the guard
`clip_norm is not None` holds, so a trainer built with all-default keyword
arguments does NOT pass the aggregated gradients through unmodified: the
precomputed gradient `3` of the single objective reaches the optimizer as
`clip_by_norm(3, 0) = 0`.  Only an explicit `clip_norm=None` skips clipping. -/
theorem c3_default_clip_norm_modifies_gradients :
    Option.map Trainer.gradients
        (trainerInit [] (fun _ => {0}) (fun _ => []) [⟨("xent"), 0, 5, some [(some 3, 7)]⟩]
          0 0 (ClipNormArg.pyBool false)) = some [(0, 7)] ∧
      Option.map Trainer.gradients
        (trainerInit [] (fun _ => {0}) (fun _ => []) [⟨("xent"), 0, 5, some [(some 3, 7)]⟩]
          0 0 ClipNormArg.pyNone) = some [(3, 7)] := by
  constructor
  · show some (clipStage (ClipNormArg.pyBool false) (sumGradients [[(some 3, 7)]])) = _
    norm_num [clipStage, clipByNorm, ClipNormArg.toQ, sumGradients, sumGradStep, dictAdd]
    decide
  · rfl

/-- **C8**: constructing a `GenericTrainer` with an empty objectives list fails:
`set.union(*(collect_encoders(obj.decoder) for obj in objectives))` raises
`TypeError` when `objectives` is empty, so no trainer object is produced —
for every choice of the remaining arguments. -/
theorem c8_empty_objectives_construction_fails (tvars : List TFVariable)
    (ce : Nat → Finset Nat) (cg : ℚ → List (Option ℚ × Nat))
    (l1_weight l2_weight : ℚ) (clip_norm : ClipNormArg) :
    trainerInit tvars ce cg [] l1_weight l2_weight clip_norm = none := rfl

/-! ## generic_trainer.py — TrainExecutable.collect_results -/

/-- One raw per-session result dict handed to `collect_results`: the fetched
losses and the three (opaque) summary blobs. -/
structure SessionResult where
  losses : List ℚ
  scalar_summaries : Nat
  histogram_summaries : Nat
  image_summaries : Nat
deriving DecidableEq

/-- The `ExecutionResult` record built by `collect_results` (its first component
`outputs` is always `[]` here). -/
structure ExecutionResult where
  outputs : List Nat
  losses : List ℚ
  scalar_summaries : Option Nat
  histogram_summaries : Option Nat
  image_summaries : Option Nat
deriving DecidableEq

/-- The fields of a `TrainExecutable` read by `collect_results`. -/
structure TrainExec where
  losses : List ℚ
  scalar_summaries : Option Nat
  histogram_summaries : Option Nat
  image_summaries : Option Nat

/-- The summary block of `collect_results`: when the executable was built
without summaries all three are `None`; otherwise they are taken verbatim from
the FIRST session result, so `results[0]` raises `IndexError` on an empty
results list. -/
def summariesPart (scalar_summaries : Option Nat) (results : List SessionResult) :
    Option (Option Nat × Option Nat × Option Nat) :=
  match scalar_summaries with
  | none => some (none, none, none)
  | some _ =>
    match results.head? with
    | none => none
    | some r =>
      some (some r.scalar_summaries, some r.histogram_summaries, some r.image_summaries)

/-- The inner loop `for i in range(len(self.losses)): losses_sum[i] += session_result['losses'][i]`
for one session result: it raises `IndexError` when that session's losses are
shorter than the executable's losses. -/
def addContribution (acc rl : List ℚ) : Option (List ℚ) :=
  if acc.length ≤ rl.length then some (List.zipWith (fun x y => x + y) acc rl) else none

/-- The `for session_result in results` accumulation loop, starting from
`losses_sum = [0. for _ in self.losses]`. -/
def sumLosses (acc : List ℚ) : List (List ℚ) → Option (List ℚ)
  | [] => some acc
  | rl :: rest =>
    match addContribution acc rl with
    | none => none
    | some acc2 => sumLosses acc2 rest

/-- `avg_losses = [s / len(results) for s in losses_sum]`: each division by a
zero `len(results)` raises `ZeroDivisionError` (so an empty `losses_sum`
produces `[]` without error). -/
def avgLossesDiv (losses_sum : List ℚ) (n : Nat) : Option (List ℚ) :=
  match losses_sum with
  | [] => some []
  | s :: rest =>
    if n = 0 then none
    else
      match avgLossesDiv rest n with
      | none => none
      | some rs => some (s / (n : ℚ) :: rs)

/-- `TrainExecutable.collect_results(results)`: summaries from the first
session (or `None`), element-wise sum of the loss sequences, then division by
`len(results)`; `none` models the call raising. -/
def collect_results (ex : TrainExec) (results : List SessionResult) :
    Option ExecutionResult :=
  match summariesPart ex.scalar_summaries results with
  | none => none
  | some (ss, hsm, ims) =>
    match sumLosses (List.replicate ex.losses.length 0) (results.map SessionResult.losses) with
    | none => none
    | some losses_sum =>
      match avgLossesDiv losses_sum results.length with
      | none => none
      | some avg_losses =>
        some { outputs := [], losses := avg_losses, scalar_summaries := ss,
               histogram_summaries := hsm, image_summaries := ims }

lemma getD_zipWith_add (a : List ℚ) (b : List ℚ) (i : Nat) (hi : i < a.length)
    (hab : a.length ≤ b.length) :
    (List.zipWith (fun x y => x + y) a b).getD i 0 = a.getD i 0 + b.getD i 0 := by
  induction a generalizing b i with
  | nil => simp at hi
  | cons x xs ih =>
    cases b with
    | nil => simp at hab
    | cons y ys =>
      cases i with
      | zero => simp
      | succ n =>
        simp only [List.zipWith_cons_cons, List.getD_cons_succ]
        exact ih ys n (by simpa using hi) (by simpa using hab)

lemma sumLosses_spec (rls : List (List ℚ)) (acc : List ℚ)
    (h : ∀ rl ∈ rls, acc.length ≤ rl.length) :
    ∃ s, sumLosses acc rls = some s ∧ s.length = acc.length ∧
      ∀ i, i < acc.length →
        s.getD i 0 = acc.getD i 0 + (rls.map (fun rl => rl.getD i 0)).sum := by
  induction rls generalizing acc with
  | nil => exact ⟨acc, rfl, rfl, by simp⟩
  | cons rl rest ih =>
    have hlen : acc.length ≤ rl.length := h rl (List.mem_cons_self rl rest)
    have hzlen : (List.zipWith (fun x y => x + y) acc rl).length = acc.length := by
      rw [List.length_zipWith]
      omega
    obtain ⟨s, hsum, hslen, hsv⟩ := ih (List.zipWith (fun x y => x + y) acc rl)
      (by intro r hr
          rw [hzlen]
          exact h r (List.mem_cons_of_mem rl hr))
    refine ⟨s, ?_, by rw [hslen, hzlen], ?_⟩
    · simp [sumLosses, addContribution, hlen, hsum]
    · intro i hi
      rw [hsv i (by rw [hzlen]; exact hi), getD_zipWith_add acc rl i hi hlen]
      simp [add_assoc]

lemma avgLossesDiv_pos (losses_sum : List ℚ) (n : Nat) (hn : n ≠ 0) :
    avgLossesDiv losses_sum n = some (losses_sum.map (fun s => s / (n : ℚ))) := by
  induction losses_sum with
  | nil => rfl
  | cons s rest ih => simp [avgLossesDiv, hn, ih]

lemma getD_map_div (s : List ℚ) (n : Nat) (i : Nat) (hi : i < s.length) :
    (s.map (fun x => x / (n : ℚ))).getD i 0 = s.getD i 0 / (n : ℚ) := by
  induction s generalizing i with
  | nil => simp at hi
  | cons x xs ih =>
    cases i with
    | zero => simp
    | succ m => simpa using ih m (by simpa using hi)

lemma getD_replicate_zero (L i : Nat) : (List.replicate L (0 : ℚ)).getD i 0 = 0 := by
  induction L generalizing i with
  | zero => simp [List.getD]
  | succ m ih =>
    cases i with
    | zero => simp [List.replicate_succ]
    | succ j => simpa [List.replicate_succ] using ih j

/-- **C6**: calling `collect_results` on an empty results list fails (the
executable's losses list is never empty — the trainer always appends the L1 and
L2 values — so with summaries disabled the division `s / len(results)` raises
`ZeroDivisionError`, and with summaries enabled `results[0]` raises
`IndexError`); no result with zero losses is produced silently. -/
theorem c6_collect_results_empty_fails (ex : TrainExec) (h : ex.losses ≠ []) :
    collect_results ex [] = none := by
  have hL : ex.losses.length ≠ 0 := by
    intro h0
    exact h (List.length_eq_zero.1 h0)
  cases hss : ex.scalar_summaries with
  | some sv => simp [collect_results, summariesPart, hss]
  | none =>
    cases hrep : List.replicate ex.losses.length (0 : ℚ) with
    | nil =>
      exact absurd (by simpa using hrep) hL
    | cons a rest =>
      simp [collect_results, summariesPart, hss, sumLosses, hrep, avgLossesDiv]

/-- Witness for C6: a concrete executable with one declared loss; collecting an
empty results list raises. -/
theorem c6_collect_results_empty_fails_witness :
    collect_results
        { losses := [1], scalar_summaries := none, histogram_summaries := none,
          image_summaries := none } [] = none :=
  c6_collect_results_empty_fails _ (by simp)

/-- **C7**: for every non-empty results list whose per-session loss sequences
all have the executable's loss count `L`, `collect_results` succeeds and
produces `avg_losses` of length `L` with
`avg_losses[i] = (sum over sessions of losses[i]) / (number of sessions)`. -/
theorem c7_collect_results_averages (ex : TrainExec) (results : List SessionResult)
    (hne : results ≠ [])
    (hlen : ∀ r ∈ results, r.losses.length = ex.losses.length) :
    ∃ res, collect_results ex results = some res ∧
      res.losses.length = ex.losses.length ∧
      ∀ i, i < ex.losses.length →
        res.losses.getD i 0 =
          (results.map (fun r => r.losses.getD i 0)).sum / (results.length : ℚ) := by
  obtain ⟨r0, rs, rfl⟩ : ∃ r0 rs, results = r0 :: rs := by
    cases results with
    | nil => exact absurd rfl hne
    | cons a l => exact ⟨a, l, rfl⟩
  have hall : ∀ rl ∈ (r0 :: rs).map SessionResult.losses,
      (List.replicate ex.losses.length (0 : ℚ)).length ≤ rl.length := by
    intro rl hrl
    rw [List.length_replicate]
    obtain ⟨r, hr, rfl⟩ := List.mem_map.1 hrl
    rw [hlen r hr]
  obtain ⟨s, hsum, hslen, hsv⟩ := sumLosses_spec _ _ hall
  rw [List.length_replicate] at hslen
  have hn : (r0 :: rs).length ≠ 0 := by simp
  have havg := avgLossesDiv_pos s (r0 :: rs).length hn
  obtain ⟨ss, hsm, ims, hsp⟩ :
      ∃ ss hsm ims,
        summariesPart ex.scalar_summaries (r0 :: rs) = some (ss, hsm, ims) := by
    cases ex.scalar_summaries with
    | none => exact ⟨none, none, none, rfl⟩
    | some sv => exact ⟨_, _, _, rfl⟩
  refine ⟨{ outputs := [], losses := s.map (fun x => x / ((r0 :: rs).length : ℚ)),
            scalar_summaries := ss, histogram_summaries := hsm,
            image_summaries := ims }, ?_, ?_, ?_⟩
  · unfold collect_results
    simp only [hsp, hsum, havg]
  · simpa using hslen
  · intro i hi
    have his : i < s.length := by rw [hslen]; exact hi
    show (s.map (fun x => x / ((r0 :: rs).length : ℚ))).getD i 0 = _
    rw [getD_map_div s _ i his, hsv i (by simpa using hi), getD_replicate_zero,
      List.map_map, zero_add]
    rfl

/-- Witness for C7: two sessions with losses `[1, 3]` and `[2, 5]` are collected
successfully (their average is `[3/2, 4]`). -/
theorem c7_collect_results_averages_witness :
    (collect_results
        { losses := [0, 0], scalar_summaries := none, histogram_summaries := none,
          image_summaries := none }
        [{ losses := [1, 3], scalar_summaries := 0, histogram_summaries := 0,
           image_summaries := 0 },
         { losses := [2, 5], scalar_summaries := 0, histogram_summaries := 0,
           image_summaries := 0 }]).isSome = true := by
  obtain ⟨res, h1, -, -⟩ :=
    c7_collect_results_averages
      { losses := [0, 0], scalar_summaries := none, histogram_summaries := none,
        image_summaries := none }
      [{ losses := [1, 3], scalar_summaries := 0, histogram_summaries := 0,
         image_summaries := 0 },
       { losses := [2, 5], scalar_summaries := 0, histogram_summaries := 0,
         image_summaries := 0 }] (by simp) (by simp)
  rw [h1]
  rfl
